import Mathlib

/-!
Shallow embedding of the turbofan VPF-vs-FPF analysis core
(`src/turbofan_vpf`): ISA atmosphere, Prandtl-Glauert compressibility
correction, polar interpolation, optimum finding and the per-phase
FPF/VPF comparison.

Numeric convention: Python floats are modelled by `ℚ` wherever the code
performs only field arithmetic, comparisons, `max` and `np.interp`
(which are exact on the rationals); the irrational values
`beta = sqrt(1 - mach²)` produced by `beta(mach)` are threaded through
as an explicit parameter `b` constrained by `0 ≤ b ∧ b^2 = 1 - mach^2`
in the theorems.  The ISA model and `beta` itself, which genuinely use
`sqrt`/`exp`/`**`, are embedded over `ℝ`.  IEEE infinities and NaN
(produced by the L/D division guards) are modelled by the type `Val`.
Python exceptions are modelled by `Except Err`; `warnings.warn` calls by
an explicit list of emitted `Warn` values.
-/

namespace TurbofanVPF

/-- Error taxonomy: each constructor corresponds to one of the distinct
`ValueError`/`FileNotFoundError`/`RuntimeError` raise sites of the code. -/
inductive Err where
  | invalidInput   -- negative altitude (isa.py)
  | supersonic     -- mach >= 1.0 (compressibility.beta)
  | outOfRange     -- alpha outside polar bounds (metrics.compute_metrics_at_alpha)
  | emptyData      -- empty polar (metrics.find_alpha_min_cd / _max_ld)
  | invalidData    -- cd <= 0 in L/D search (metrics.find_alpha_max_ld)
  | invalidTarget  -- target not 'min_cd'/'max_ld' (incidence_control)
  | notLoaded      -- interp_cl_cd before any load (polars.interp_cl_cd)
  | lengthMismatch -- unequal array lengths (polars.set_polar_data)
  deriving Repr, DecidableEq

/-- Non-fatal `warnings.warn` events of the code. -/
inductive Warn where
  | machExceedsValid  -- config.validate_mach: mach > mach_max_valid
  | waveDragUnmodeled -- correct_cd_pg: mach > 0.6
  | extrapolationLow  -- polars.interp_cl_cd: alpha below data range
  | extrapolationHigh -- polars.interp_cl_cd: alpha above data range
  deriving Repr, DecidableEq

/-- IEEE-754-style value: Python float results that may be ±inf or NaN
(the L/D ratio fields).  Finite values stay exact rationals. -/
inductive Val where
  | finite (q : ℚ)
  | posInf
  | negInf
  | nan
  deriving Repr, DecidableEq

namespace Val

/-- IEEE subtraction on `Val` (inf − inf = NaN etc.). -/
def sub : Val → Val → Val
  | nan, _ => nan
  | _, nan => nan
  | finite p, finite q => finite (p - q)
  | finite _, posInf => negInf
  | finite _, negInf => posInf
  | posInf, finite _ => posInf
  | posInf, posInf => nan
  | posInf, negInf => posInf
  | negInf, finite _ => negInf
  | negInf, posInf => negInf
  | negInf, negInf => nan

/-- IEEE division on `Val`.  The code only divides by values it has
checked to be `> 0`, so the `finite / finite 0` case is unreachable
(Lean's `p / 0 = 0` stands in). -/
def div : Val → Val → Val
  | nan, _ => nan
  | _, nan => nan
  | finite p, finite q => finite (p / q)
  | finite _, posInf => finite 0
  | finite _, negInf => finite 0
  | posInf, finite q => if 0 ≤ q then posInf else negInf
  | negInf, finite q => if 0 ≤ q then negInf else posInf
  | posInf, posInf => nan
  | posInf, negInf => nan
  | negInf, posInf => nan
  | negInf, negInf => nan

/-- Multiplication by a positive rational constant (used for `* 100`). -/
def scale (c : ℚ) : Val → Val
  | finite q => finite (c * q)
  | posInf => posInf
  | negInf => negInf
  | nan => nan

/-- The Python comparison `v > 0` (False on NaN). -/
def gtZero : Val → Bool
  | finite q => decide (0 < q)
  | posInf => true
  | negInf => false
  | nan => false

end Val

/-- A polar table: parallel `(alpha_deg, cl, cd)` sequences. -/
structure Polar where
  alpha : List ℚ
  cl : List ℚ
  cd : List ℚ
  deriving Repr, DecidableEq

/-- `domain.flight_phases.FlightPhase`. -/
structure FlightPhase where
  name : String
  altitude_m : ℚ
  mach : ℚ
  deriving Repr, DecidableEq

/-- `domain.config.CompressibilityConfig` (the `model` field is the
constant string "PG" and plays no computational role). -/
structure CompressibilityConfig where
  use_compressibility : Bool := true
  mach_max_valid : ℚ := 7/10
  deriving Repr, DecidableEq

/-- `config.validate_mach`: warns (never fails) when mach exceeds the
configured ceiling. -/
def CompressibilityConfig.validate_mach (cfg : CompressibilityConfig)
    (mach : ℚ) : List Warn :=
  if cfg.mach_max_valid < mach then [Warn.machExceedsValid] else []

/-- `incidence_control` target literal (`"min_cd"` / `"max_ld"`). -/
inductive Target where
  | min_cd
  | max_ld
  deriving Repr, DecidableEq

/-! ### List helpers: numpy `min` / `max` / `argmin` / `argmax` / `interp` -/

/-- `ndarray.min()` — minimum over the whole array (0 on empty, but every
caller guards non-emptiness first). -/
def listMin : List ℚ → ℚ
  | [] => 0
  | [x] => x
  | x :: y :: t => min x (listMin (y :: t))

/-- `ndarray.max()`. -/
def listMax : List ℚ → ℚ
  | [] => 0
  | [x] => x
  | x :: y :: t => max x (listMax (y :: t))

/-- `np.argmin`: index of the first occurrence of the minimum. -/
def argminIdx : List ℚ → Nat
  | [] => 0
  | [_] => 0
  | x :: y :: t => if x ≤ listMin (y :: t) then 0 else argminIdx (y :: t) + 1

/-- `np.argmax`: index of the first occurrence of the maximum. -/
def argmaxIdx : List ℚ → Nat
  | [] => 0
  | [_] => 0
  | x :: y :: t => if listMax (y :: t) ≤ x then 0 else argmaxIdx (y :: t) + 1

/-- Strict monotonicity of an alpha grid, as a decidable Boolean. -/
def strictIncrb : List ℚ → Bool
  | [] => true
  | [_] => true
  | x :: y :: t => decide (x < y) && strictIncrb (y :: t)

/-- `np.interp x xp fp` for an increasing grid `xp`: clamps to the end
values outside the grid and interpolates linearly on each cell.  The
length-mismatch patterns are unreachable for the equal-length polars the
code builds. -/
def interpLin (x : ℚ) : List ℚ → List ℚ → ℚ
  | [], _ => 0
  | _ :: _, [] => 0
  | [_], f0 :: _ => f0
  | _ :: _ :: _, [f0] => f0
  | x0 :: x1 :: xp, f0 :: f1 :: fp =>
    if x ≤ x0 then f0
    else if x ≤ x1 then f0 + (f1 - f0) * (x - x0) / (x1 - x0)
    else interpLin x (x1 :: xp) (f1 :: fp)

/-! ### `aero.metrics` -/

/-- The `{cl, cd, ld}` record returned by `compute_metrics_at_alpha`.
`cl` and `cd` are always finite; `ld` may be ±inf. -/
structure Metrics where
  cl : ℚ
  cd : ℚ
  ld : Val
  deriving Repr, DecidableEq

/-- `metrics.find_alpha_min_cd`: alpha at the (first) index of minimum cd. -/
def find_alpha_min_cd (polar : Polar) : Except Err ℚ :=
  if polar.alpha.length = 0 then .error .emptyData
  else .ok (polar.alpha.getD (argminIdx polar.cd) 0)

/-- `metrics.find_alpha_max_ld`: alpha at the (first) index of maximum
cl/cd; fails when any cd ≤ 0. -/
def find_alpha_max_ld (polar : Polar) : Except Err ℚ :=
  if polar.alpha.length = 0 then .error .emptyData
  else if polar.cd.any (fun c => c ≤ 0) then .error .invalidData
  else .ok (polar.alpha.getD (argmaxIdx (polar.cl.zipWith (· / ·) polar.cd)) 0)

/-- `metrics.compute_metrics_at_alpha`: range-checked interpolation of cl
and cd plus the sign-preserving L/D division guard. -/
def compute_metrics_at_alpha (polar : Polar) (alpha : ℚ) : Except Err Metrics :=
  if polar.alpha.length = 0 then .error .emptyData
  else if alpha < listMin polar.alpha ∨ listMax polar.alpha < alpha then
    .error .outOfRange
  else
    let cl := interpLin alpha polar.alpha polar.cl
    let cd := interpLin alpha polar.alpha polar.cd
    let ld : Val :=
      if cd ≤ 0 then (if 0 < cl then .posInf else .negInf)
      else .finite (cl / cd)
    .ok ⟨cl, cd, ld⟩

/-! ### `aero.compressibility`

`beta(mach) = sqrt(1 - mach²)` is irrational; the rational pipeline
below receives the value of `beta(mach)` as an explicit parameter `b`
(theorems constrain it by `0 ≤ b` and `b^2 = 1 - mach^2`).  The `beta`
call's supersonic check is performed where the code performs it. -/

/-- `correct_cl_pg`: CL / β (elementwise). -/
def correct_cl_pg (cl : List ℚ) (b : ℚ) : List ℚ :=
  cl.map (fun c => c / b)

/-- Index of the entry of minimum `|cl|` (`np.argmin(np.abs(cl))`). -/
def zero_lift_idx (cl : List ℚ) : Nat :=
  argminIdx (cl.map (fun c => |c|))

/-- `correct_cd_pg` on arrays (the branch taken when both `cd` and `cl`
are ndarrays): CD0/β² + (CD−CD0)/β³ floored at CD0/β², with CD0 the cd
entry at the point of minimum |cl|.  Out-of-bounds indexing (possible
only for unequal-length inputs, which the code never builds) yields the
`getD` default 0. -/
def correct_cd_pg_arr (cd cl : List ℚ) (b : ℚ) : List ℚ :=
  let cd0 := cd.getD (zero_lift_idx cl) 0
  cd.map (fun c => max (cd0 / b ^ 2 + (c - cd0) / b ^ 3) (cd0 / b ^ 2))

/-- `correct_cd_pg` on a scalar `cd`: both the `cl = None` fallback and
the scalar-`cl` branch compute `cd / β²`. -/
def correct_cd_pg_scalar (cd : ℚ) (b : ℚ) (cl : Option ℚ) : ℚ :=
  match cl with
  | some _ => cd / b ^ 2   -- "Scalar case": cd0_estimate = cd; cd / β²
  | none => cd / b ^ 2     -- "Fallback to simple scaling if CL not provided"

/-- The warnings `correct_cd_pg` emits (wave-drag notice at mach > 0.6). -/
def correct_cd_pg_warns (mach : ℚ) : List Warn :=
  if 3/5 < mach then [Warn.waveDragUnmodeled] else []

/-- The corrected polar built by `apply_compressibility_to_polar` when
the switch is on: alpha unchanged, cl := cl/β, cd := correct_cd_pg with
`cl=cl_corrected`. -/
def correctedPolar (p : Polar) (b : ℚ) : Polar :=
  let clc := correct_cl_pg p.cl b
  ⟨p.alpha, clc, correct_cd_pg_arr p.cd clc b⟩

/-- `apply_compressibility_to_polar`: identity when the global switch is
off; otherwise `beta` (called inside `correct_cl_pg`) fails on mach ≥ 1,
and the corrected polar is returned together with the non-fatal warnings
(`validate_mach`, then the wave-drag notice). -/
def apply_compressibility_to_polar (cfg : CompressibilityConfig)
    (p : Polar) (mach b : ℚ) : Except Err (Polar × List Warn) :=
  if cfg.use_compressibility = false then .ok (p, [])
  else if 1 ≤ mach then .error .supersonic
  else .ok (correctedPolar p b, cfg.validate_mach mach ++ correct_cd_pg_warns mach)

/-! ### `aero.incidence_control` -/

/-- `alpha_vpf`: optimum of the given polar for the configured target
(the invalid-target branch is unrepresentable for the `Target` enum). -/
def alpha_vpf (polar : Polar) (target : Target) : Except Err ℚ :=
  match target with
  | .min_cd => find_alpha_min_cd polar
  | .max_ld => find_alpha_max_ld polar

/-- `compare_phase`'s result record. -/
structure ComparisonResult where
  fpf_alpha : ℚ
  vpf_alpha : ℚ
  fpf_cd : ℚ
  vpf_cd : ℚ
  fpf_ld : Val
  vpf_ld : Val
  delta_cd : ℚ
  delta_ld : Val
  cd_ratio : Val
  ld_ratio : Val
  cd_reduction_pct : ℚ
  ld_improvement_pct : Val
  deriving Repr, DecidableEq

/-- The record `compare_phase` assembles from the two metric
evaluations, including the division-by-non-positive guards of the code. -/
def mkComparison (fpf_alpha vpf_alpha : ℚ) (fm vm : Metrics) : ComparisonResult :=
  { fpf_alpha := fpf_alpha
    vpf_alpha := vpf_alpha
    fpf_cd := fm.cd
    vpf_cd := vm.cd
    fpf_ld := fm.ld
    vpf_ld := vm.ld
    delta_cd := vm.cd - fm.cd
    delta_ld := vm.ld.sub fm.ld
    cd_ratio := if 0 < fm.cd then .finite (vm.cd / fm.cd) else .posInf
    ld_ratio := if fm.ld.gtZero then vm.ld.div fm.ld else .posInf
    cd_reduction_pct := if 0 < fm.cd then (fm.cd - vm.cd) / fm.cd * 100 else 0
    ld_improvement_pct :=
      if fm.ld.gtZero then ((vm.ld.sub fm.ld).div fm.ld).scale 100
      else .finite 0 }

/-- `compare_phase`: corrects the polar for the phase Mach, finds the
VPF optimum, evaluates both angles on the corrected polar and assembles
the comparison record.  Warnings emitted along the way are returned
alongside the record. -/
def compare_phase (cfg : CompressibilityConfig) (polar : Polar)
    (phase : FlightPhase) (b : ℚ) (fpf_alpha : ℚ) (vpf_target : Target) :
    Except Err (ComparisonResult × List Warn) := do
  let (polar_corrected, warns) ← apply_compressibility_to_polar cfg polar phase.mach b
  let vpf_alpha ← alpha_vpf polar_corrected vpf_target
  let fpf_metrics ← compute_metrics_at_alpha polar_corrected fpf_alpha
  let vpf_metrics ← compute_metrics_at_alpha polar_corrected vpf_alpha
  .ok (mkComparison fpf_alpha vpf_alpha fpf_metrics vpf_metrics, warns)

/-- The polar `compare_phase` evaluates both angles on: the corrected
polar when the compressibility switch is on, the input polar otherwise
(`b` stands for the value `beta(mach)`). -/
def effectivePolar (cfg : CompressibilityConfig) (p : Polar) (b : ℚ) : Polar :=
  if cfg.use_compressibility then correctedPolar p b else p

/-- The warnings `apply_compressibility_to_polar` emits. -/
def applyWarns (cfg : CompressibilityConfig) (mach : ℚ) : List Warn :=
  if cfg.use_compressibility then cfg.validate_mach mach ++ correct_cd_pg_warns mach
  else []

/-! ### `aero.polars` (global current-polar slot) -/

/-- The module-level `_loaded_alpha/_loaded_cl/_loaded_cd` slot:
`none` models the unloaded (`None`) state. -/
def PolarStore : Type := Option Polar

/-- `polars.set_polar_data` as a state transition: empty alpha resets the
slot to unloaded and succeeds; unequal non-empty lengths fail leaving the
slot unchanged; otherwise the slot is overwritten. -/
def set_polar_data (s : PolarStore) (alpha cl cd : List ℚ) :
    PolarStore × Option Err :=
  if alpha.length = 0 then (none, none)
  else if alpha.length ≠ cl.length ∨ alpha.length ≠ cd.length then
    (s, some .lengthMismatch)
  else (some ⟨alpha, cl, cd⟩, none)

/-- `polars.interp_cl_cd`: fails with the not-loaded error on an unloaded
(or empty) slot; clamps out-of-range queries to the boundary with an
extrapolation warning; interpolates cl and cd. -/
def interp_cl_cd (s : PolarStore) (alpha_deg : ℚ) :
    Except Err (ℚ × ℚ × List Warn) :=
  match s with
  | none => .error .notLoaded
  | some p =>
    if p.alpha.length = 0 then .error .notLoaded
    else
      let amin := listMin p.alpha
      let amax := listMax p.alpha
      let (a, w) : ℚ × List Warn :=
        if alpha_deg < amin then (amin, [Warn.extrapolationLow])
        else if amax < alpha_deg then (amax, [Warn.extrapolationHigh])
        else (alpha_deg, [])
      .ok (interpLin a p.alpha p.cl, interpLin a p.alpha p.cd, w)

/-! ### Lemmas about the list helpers -/

theorem listMin_le_mem (l : List ℚ) (x : ℚ) (hx : x ∈ l) : listMin l ≤ x := by
  induction l with
  | nil => cases hx
  | cons a t ih =>
    cases t with
    | nil =>
      rcases List.mem_cons.mp hx with h | h
      · subst h; simp [listMin]
      · cases h
    | cons b t' =>
      rw [show listMin (a :: b :: t') = min a (listMin (b :: t')) from rfl]
      rcases List.mem_cons.mp hx with h | h
      · subst h; exact min_le_left _ _
      · exact le_trans (min_le_right _ _) (ih h)

theorem mem_le_listMax (l : List ℚ) (x : ℚ) (hx : x ∈ l) : x ≤ listMax l := by
  induction l with
  | nil => cases hx
  | cons a t ih =>
    cases t with
    | nil =>
      rcases List.mem_cons.mp hx with h | h
      · subst h; simp [listMax]
      · cases h
    | cons b t' =>
      rw [show listMax (a :: b :: t') = max a (listMax (b :: t')) from rfl]
      rcases List.mem_cons.mp hx with h | h
      · subst h; exact le_max_left _ _
      · exact le_trans (ih h) (le_max_right _ _)

theorem getD_mem (l : List ℚ) (i : Nat) (hi : i < l.length) : l.getD i 0 ∈ l := by
  induction l generalizing i with
  | nil => simp at hi
  | cons a t ih =>
    cases i with
    | zero => simp
    | succ j =>
      simp only [List.getD_cons_succ]
      exact List.mem_cons_of_mem _ (ih j (by simpa using hi))

theorem argminIdx_lt_length (l : List ℚ) (h : l ≠ []) : argminIdx l < l.length := by
  induction l with
  | nil => exact absurd rfl h
  | cons a t ih =>
    cases t with
    | nil => simp [argminIdx]
    | cons b t' =>
      rw [show argminIdx (a :: b :: t')
            = if a ≤ listMin (b :: t') then 0 else argminIdx (b :: t') + 1 from rfl]
      split
      · simp
      · have := ih (List.cons_ne_nil _ _)
        simpa [Nat.succ_lt_succ_iff] using this

theorem getD_argminIdx (l : List ℚ) (h : l ≠ []) :
    l.getD (argminIdx l) 0 = listMin l := by
  induction l with
  | nil => exact absurd rfl h
  | cons a t ih =>
    cases t with
    | nil => simp [argminIdx, listMin]
    | cons b t' =>
      rw [show argminIdx (a :: b :: t')
            = if a ≤ listMin (b :: t') then 0 else argminIdx (b :: t') + 1 from rfl,
         show listMin (a :: b :: t') = min a (listMin (b :: t')) from rfl]
      split
      · next hle => simp [min_eq_left hle]
      · next hlt =>
        have hmin : min a (listMin (b :: t')) = listMin (b :: t') :=
          min_eq_right (le_of_lt (lt_of_not_le hlt))
        rw [hmin, List.getD_cons_succ]
        exact ih (List.cons_ne_nil _ _)

theorem strictIncrb_tail (x : ℚ) (l : List ℚ) (h : strictIncrb (x :: l) = true) :
    strictIncrb l = true := by
  cases l with
  | nil => rfl
  | cons y t =>
    have : (decide (x < y) && strictIncrb (y :: t)) = true := h
    exact (Bool.and_eq_true_iff.mp this).2

theorem strictIncrb_head_lt (x : ℚ) (l : List ℚ) (h : strictIncrb (x :: l) = true)
    (i : Nat) (hi : i < l.length) : x < l.getD i 0 := by
  induction l generalizing x i with
  | nil => simp at hi
  | cons y t ih =>
    have hxy : x < y := by
      have : (decide (x < y) && strictIncrb (y :: t)) = true := h
      exact of_decide_eq_true (Bool.and_eq_true_iff.mp this).1
    cases i with
    | zero => simpa using hxy
    | succ j =>
      simp only [List.getD_cons_succ]
      exact lt_trans hxy (ih y (strictIncrb_tail x (y :: t) h) j (by simpa using hi))

theorem interpLin_getD_grid (xp fp : List ℚ) (hlen : xp.length = fp.length)
    (hinc : strictIncrb xp = true) (i : Nat) (hi : i < xp.length) :
    interpLin (xp.getD i 0) xp fp = fp.getD i 0 := by
  induction xp generalizing fp i with
  | nil => simp at hi
  | cons x0 xp' ih =>
    cases fp with
    | nil => simp at hlen
    | cons f0 fp' =>
      cases xp' with
      | nil =>
        cases fp' with
        | nil =>
          cases i with
          | zero => simp [interpLin]
          | succ j => simp at hi
        | cons _ _ => simp at hlen
      | cons x1 xp'' =>
        cases fp' with
        | nil => simp at hlen
        | cons f1 fp'' =>
          cases i with
          | zero =>
            simp only [List.getD_cons_zero]
            rw [show interpLin x0 (x0 :: x1 :: xp'') (f0 :: f1 :: fp'')
                  = if x0 ≤ x0 then f0
                    else if x0 ≤ x1 then f0 + (f1 - f0) * (x0 - x0) / (x1 - x0)
                    else interpLin x0 (x1 :: xp'') (f1 :: fp'') from rfl]
            simp
          | succ j =>
            have hj : j < (x1 :: xp'').length := by simpa using hi
            have hx0 : x0 < (x1 :: xp'').getD j 0 :=
              strictIncrb_head_lt x0 (x1 :: xp'') hinc j hj
            simp only [List.getD_cons_succ]
            rw [show interpLin ((x1 :: xp'').getD j 0) (x0 :: x1 :: xp'') (f0 :: f1 :: fp'')
                  = if (x1 :: xp'').getD j 0 ≤ x0 then f0
                    else if (x1 :: xp'').getD j 0 ≤ x1 then
                      f0 + (f1 - f0) * ((x1 :: xp'').getD j 0 - x0) / (x1 - x0)
                    else interpLin ((x1 :: xp'').getD j 0) (x1 :: xp'') (f1 :: fp'') from rfl]
            rw [if_neg (not_le.mpr hx0)]
            cases j with
            | zero =>
              have hx01 : x0 < x1 := by simpa using hx0
              simp only [List.getD_cons_zero]
              rw [if_pos le_rfl]
              have hne : x1 - x0 ≠ 0 := sub_ne_zero.mpr (ne_of_gt hx01)
              field_simp
            | succ k =>
              have hk : k < xp''.length := by simpa using hj
              have hx1 : x1 < xp''.getD k 0 :=
                strictIncrb_head_lt x1 xp'' (strictIncrb_tail x0 _ hinc) k hk
              simp only [List.getD_cons_succ]
              rw [if_neg (not_le.mpr hx1)]
              have := ih (f1 :: fp'') (by simpa using hlen)
                (strictIncrb_tail x0 _ hinc) (k + 1) (by simpa using hj)
              simpa using this

theorem le_interpLin (xp fp : List ℚ) (hne : xp ≠ [])
    (hlen : xp.length = fp.length) (hinc : strictIncrb xp = true)
    (m x : ℚ) (hm : ∀ y ∈ fp, m ≤ y) : m ≤ interpLin x xp fp := by
  induction xp generalizing fp with
  | nil => exact absurd rfl hne
  | cons x0 xp' ih =>
    cases fp with
    | nil => simp at hlen
    | cons f0 fp' =>
      cases xp' with
      | nil =>
        cases fp' with
        | nil => simpa [interpLin] using hm f0 (List.mem_cons_self _ _)
        | cons _ _ => simp at hlen
      | cons x1 xp'' =>
        cases fp' with
        | nil => simp at hlen
        | cons f1 fp'' =>
          have hf0 : m ≤ f0 := hm f0 (List.mem_cons_self _ _)
          have hf1 : m ≤ f1 := hm f1 (List.mem_cons_of_mem _ (List.mem_cons_self _ _))
          have hx01 : x0 < x1 := by
            have := strictIncrb_head_lt x0 (x1 :: xp'') hinc 0 (by simp)
            simpa using this
          rw [show interpLin x (x0 :: x1 :: xp'') (f0 :: f1 :: fp'')
                = if x ≤ x0 then f0
                  else if x ≤ x1 then f0 + (f1 - f0) * (x - x0) / (x1 - x0)
                  else interpLin x (x1 :: xp'') (f1 :: fp'') from rfl]
          split
          · exact hf0
          · next hgt0 =>
            split
            · next hle1 =>
              have hx0x : x0 < x := lt_of_not_le hgt0
              have hden : (0:ℚ) < x1 - x0 := sub_pos.mpr hx01
              have ht0 : (0:ℚ) ≤ (x - x0) / (x1 - x0) :=
                div_nonneg (le_of_lt (sub_pos.mpr hx0x)) (le_of_lt hden)
              have ht1 : (x - x0) / (x1 - x0) ≤ 1 :=
                (div_le_one hden).mpr (by linarith)
              rw [mul_div_assoc]
              nlinarith [mul_nonneg (sub_nonneg.mpr hf0) (sub_nonneg.mpr ht1),
                mul_nonneg (sub_nonneg.mpr hf1) ht0]
            · exact ih (f1 :: fp'') (List.cons_ne_nil _ _) (by simpa using hlen)
                (strictIncrb_tail x0 _ hinc)
                (fun y hy => hm y (List.mem_cons_of_mem _ hy))

/-! ### Bridge lemmas for the pipeline functions -/

theorem compute_metrics_ok (p : Polar) (a : ℚ) (hne : p.alpha ≠ [])
    (h1 : listMin p.alpha ≤ a) (h2 : a ≤ listMax p.alpha) :
    compute_metrics_at_alpha p a =
      .ok ⟨interpLin a p.alpha p.cl, interpLin a p.alpha p.cd,
        if interpLin a p.alpha p.cd ≤ 0 then
          (if 0 < interpLin a p.alpha p.cl then .posInf else .negInf)
        else .finite (interpLin a p.alpha p.cl / interpLin a p.alpha p.cd)⟩ := by
  have h0 : ¬ p.alpha.length = 0 := by
    simpa [List.length_eq_zero] using hne
  have hr : ¬ (a < listMin p.alpha ∨ listMax p.alpha < a) := by
    push_neg
    exact ⟨h1, h2⟩
  simp only [compute_metrics_at_alpha, h0, hr, if_false]

theorem apply_compressibility_eq (cfg : CompressibilityConfig) (p : Polar)
    (mach b : ℚ) (hmach : mach < 1) :
    apply_compressibility_to_polar cfg p mach b
      = .ok (effectivePolar cfg p b, applyWarns cfg mach) := by
  cases hcfg : cfg.use_compressibility <;>
    simp [apply_compressibility_to_polar, effectivePolar, applyWarns, hcfg,
      not_le.mpr hmach]

theorem effectivePolar_alpha (cfg : CompressibilityConfig) (p : Polar) (b : ℚ) :
    (effectivePolar cfg p b).alpha = p.alpha := by
  cases hcfg : cfg.use_compressibility <;>
    simp [effectivePolar, correctedPolar, hcfg]

theorem effectivePolar_cl_length (cfg : CompressibilityConfig) (p : Polar) (b : ℚ) :
    (effectivePolar cfg p b).cl.length = p.cl.length := by
  cases hcfg : cfg.use_compressibility <;>
    simp [effectivePolar, correctedPolar, correct_cl_pg, hcfg]

theorem effectivePolar_cd_length (cfg : CompressibilityConfig) (p : Polar) (b : ℚ) :
    (effectivePolar cfg p b).cd.length = p.cd.length := by
  cases hcfg : cfg.use_compressibility <;>
    simp [effectivePolar, correctedPolar, correct_cd_pg_arr, correct_cl_pg, hcfg]

/-! ### C1 -/

/-- C1: for every flight phase and non-empty base polar with strictly
increasing alpha grid and positive corrected cd entries, if the supplied
`fpf_alpha` lies within the (corrected) polar's alpha range and the VPF
target is `min_cd`, then `compare_phase` returns a `ComparisonResult`
with `vpf_cd ≤ fpf_cd`. -/
theorem compare_phase_min_cd_vpf_cd_le_fpf_cd
    (cfg : CompressibilityConfig) (p : Polar) (phase : FlightPhase)
    (b fpf_alpha : ℚ)
    (hmach : phase.mach < 1)
    (hne : p.alpha ≠ [])
    (hinc : strictIncrb p.alpha = true)
    (hlcd : p.cd.length = p.alpha.length)
    (hcdpos : ∀ c ∈ (effectivePolar cfg p b).cd, 0 < c)
    (hlo : listMin p.alpha ≤ fpf_alpha) (hhi : fpf_alpha ≤ listMax p.alpha) :
    ∃ r ws, compare_phase cfg p phase b fpf_alpha Target.min_cd = .ok (r, ws)
      ∧ r.vpf_cd ≤ r.fpf_cd := by
  have happly := apply_compressibility_eq cfg p phase.mach b hmach
  set pc := effectivePolar cfg p b with hpc
  have hpca : pc.alpha = p.alpha := effectivePolar_alpha cfg p b
  have hcdlen : pc.cd.length = p.alpha.length := by
    rw [effectivePolar_cd_length cfg p b, hlcd]
  have hpcne : pc.alpha ≠ [] := by rw [hpca]; exact hne
  have hcdne : pc.cd ≠ [] := by
    intro h
    apply hne
    rw [← List.length_eq_zero, ← hcdlen, h, List.length_nil]
  set j := argminIdx pc.cd with hj
  have hjlt : j < p.alpha.length := by
    rw [← hcdlen]; exact argminIdx_lt_length _ hcdne
  set va := pc.alpha.getD j 0 with hva
  have hvaeq : va = p.alpha.getD j 0 := by rw [hva, hpca]
  have hvalo : listMin p.alpha ≤ va := by
    rw [hvaeq]; exact listMin_le_mem _ _ (getD_mem _ _ hjlt)
  have hvahi : va ≤ listMax p.alpha := by
    rw [hvaeq]; exact mem_le_listMax _ _ (getD_mem _ _ hjlt)
  have hfind : find_alpha_min_cd pc = .ok va := by
    unfold find_alpha_min_cd
    rw [if_neg (by simpa [List.length_eq_zero] using hpcne)]
  have hfm := compute_metrics_ok pc fpf_alpha hpcne
    (by rw [hpca]; exact hlo) (by rw [hpca]; exact hhi)
  have hvm := compute_metrics_ok pc va hpcne
    (by rw [hpca]; exact hvalo) (by rw [hpca]; exact hvahi)
  obtain ⟨F, hF, hFcd⟩ : ∃ m, compute_metrics_at_alpha pc fpf_alpha = .ok m
      ∧ m.cd = interpLin fpf_alpha pc.alpha pc.cd := ⟨_, hfm, rfl⟩
  obtain ⟨V, hV, hVcd⟩ : ∃ m, compute_metrics_at_alpha pc va = .ok m
      ∧ m.cd = interpLin va pc.alpha pc.cd := ⟨_, hvm, rfl⟩
  refine ⟨mkComparison fpf_alpha va F V, applyWarns cfg phase.mach, ?_, ?_⟩
  · simp only [compare_phase, happly, alpha_vpf, hfind, hF, hV, bind,
      Except.bind]
  · show V.cd ≤ F.cd
    rw [hFcd, hVcd]
    have hgrid : interpLin va pc.alpha pc.cd = pc.cd.getD j 0 := by
      have := interpLin_getD_grid pc.alpha pc.cd
        (by rw [hpca, hcdlen]) (by rw [hpca]; exact hinc) j (by rw [hpca]; exact hjlt)
      rw [← hva] at this
      exact this
    rw [hgrid, getD_argminIdx pc.cd hcdne]
    exact le_interpLin pc.alpha pc.cd hpcne (by rw [hpca, hcdlen])
      (by rw [hpca]; exact hinc) (listMin pc.cd) fpf_alpha
      (fun y hy => listMin_le_mem _ _ hy)

/-- C1 witness: a concrete corrected 3-point polar at cruise Mach 3/5
(β = 4/5) with the FPF angle inside the range. -/
theorem compare_phase_min_cd_vpf_cd_le_fpf_cd_witness :
    ((3:ℚ)/5 < 1) ∧ strictIncrb [0, 2, 4] = true ∧
    (∀ c ∈ (effectivePolar ⟨true, 7/10⟩ ⟨[0, 2, 4], [1, 2, 3], [3, 2, 1]⟩ (4/5)).cd,
      0 < c) ∧
    (∃ r ws, compare_phase ⟨true, 7/10⟩ ⟨[0, 2, 4], [1, 2, 3], [3, 2, 1]⟩
        ⟨"cruise", 11000, 3/5⟩ (4/5) 3 Target.min_cd = .ok (r, ws)
      ∧ r.vpf_cd ≤ r.fpf_cd) :=
  ⟨by norm_num, by norm_num [strictIncrb],
    by norm_num [effectivePolar, correctedPolar, correct_cd_pg_arr,
      correct_cl_pg, zero_lift_idx, argminIdx, listMin, abs_of_nonneg],
    compare_phase_min_cd_vpf_cd_le_fpf_cd ⟨true, 7/10⟩
      ⟨[0, 2, 4], [1, 2, 3], [3, 2, 1]⟩ ⟨"cruise", 11000, 3/5⟩ (4/5) 3
      (by norm_num) (by simp) (by norm_num [strictIncrb]) (by simp)
      (by norm_num [effectivePolar, correctedPolar, correct_cd_pg_arr,
        correct_cl_pg, zero_lift_idx, argminIdx, listMin, abs_of_nonneg])
      (by norm_num [listMin]) (by norm_num [listMax])⟩

/-! ### C2 -/

theorem compute_metrics_out_of_range (p : Polar) (a : ℚ) (hne : p.alpha ≠ [])
    (h : a < listMin p.alpha ∨ listMax p.alpha < a) :
    compute_metrics_at_alpha p a = .error .outOfRange := by
  have h0 : ¬ p.alpha.length = 0 := by
    simpa [List.length_eq_zero] using hne
  simp only [compute_metrics_at_alpha, h0, if_false, if_pos h]

/-- C2 counterexample: with the FPF angle 10 outside the alpha range
[0, 4], `compare_phase` does not clamp and return a result — it fails
with the out-of-range error. -/
theorem compare_phase_clamp_cex :
    compare_phase ⟨false, 7/10⟩ ⟨[0, 2, 4], [1, 2, 3], [3, 2, 1]⟩
      ⟨"takeoff", 0, 1/4⟩ 1 10 Target.min_cd = .error .outOfRange ∧
    ∀ r ws, compare_phase ⟨false, 7/10⟩ ⟨[0, 2, 4], [1, 2, 3], [3, 2, 1]⟩
      ⟨"takeoff", 0, 1/4⟩ 1 10 Target.min_cd ≠ .ok (r, ws) := by
  have hme : compare_phase ⟨false, 7/10⟩ ⟨[0, 2, 4], [1, 2, 3], [3, 2, 1]⟩
      ⟨"takeoff", 0, 1/4⟩ 1 10 Target.min_cd = .error .outOfRange := by
    have happly := apply_compressibility_eq ⟨false, 7/10⟩
      ⟨[0, 2, 4], [1, 2, 3], [3, 2, 1]⟩ (1/4) 1 (by norm_num)
    have heff : effectivePolar ⟨false, 7/10⟩ ⟨[0, 2, 4], [1, 2, 3], [3, 2, 1]⟩ 1
        = ⟨[0, 2, 4], [1, 2, 3], [3, 2, 1]⟩ := by
      simp [effectivePolar]
    rw [heff] at happly
    have hvpf : alpha_vpf ⟨[0, 2, 4], [1, 2, 3], [3, 2, 1]⟩ Target.min_cd
        = .ok 4 := by
      norm_num [alpha_vpf, find_alpha_min_cd, argminIdx, listMin]
    have herr : compute_metrics_at_alpha ⟨[0, 2, 4], [1, 2, 3], [3, 2, 1]⟩
        (10:ℚ) = .error .outOfRange :=
      compute_metrics_out_of_range _ _ (by simp) (Or.inr (by norm_num [listMax]))
    simp only [compare_phase, happly, hvpf, herr, bind, Except.bind]
  exact ⟨hme, fun r ws h => Except.noConfusion (hme ▸ h)⟩

/-- C2 amended: when the fixed FPF angle falls strictly outside the
phase's corrected-polar alpha range, `compare_phase` does not clamp; it
fails with the OutOfRange error and returns no `ComparisonResult`
(clamping with a warning exists only in the separate `interp_cl_cd`
lookup path). -/
theorem compare_phase_out_of_range_fails
    (cfg : CompressibilityConfig) (p : Polar) (phase : FlightPhase)
    (b fpf_alpha : ℚ) (vpf_target : Target)
    (hmach : phase.mach < 1)
    (hne : p.alpha ≠ [])
    (hcdpos : ∀ c ∈ (effectivePolar cfg p b).cd, 0 < c)
    (hout : fpf_alpha < listMin p.alpha ∨ listMax p.alpha < fpf_alpha) :
    compare_phase cfg p phase b fpf_alpha vpf_target = .error .outOfRange := by
  have happly := apply_compressibility_eq cfg p phase.mach b hmach
  set pc := effectivePolar cfg p b with hpc
  have hpca : pc.alpha = p.alpha := effectivePolar_alpha cfg p b
  have hpcne : pc.alpha ≠ [] := by rw [hpca]; exact hne
  have h0 : ¬ pc.alpha.length = 0 := by
    simpa [List.length_eq_zero] using hpcne
  have hany : ¬ (pc.cd.any (fun c => c ≤ 0) = true) := by
    rw [List.any_eq_true]
    rintro ⟨c, hc, hcle⟩
    exact absurd (hcdpos c hc) (by simpa using of_decide_eq_true hcle)
  obtain ⟨va, hvpf⟩ : ∃ va, alpha_vpf pc vpf_target = .ok va := by
    cases vpf_target
    · exact ⟨_, by unfold alpha_vpf find_alpha_min_cd; rw [if_neg h0]⟩
    · exact ⟨_, by unfold alpha_vpf find_alpha_max_ld; rw [if_neg h0, if_neg hany]⟩
  have herr : compute_metrics_at_alpha pc fpf_alpha = .error .outOfRange :=
    compute_metrics_out_of_range pc fpf_alpha hpcne (by rw [hpca]; exact hout)
  simp only [compare_phase, happly, hvpf, herr, bind, Except.bind]

/-- C2 amended witness: concrete out-of-range FPF angle. -/
theorem compare_phase_out_of_range_fails_witness :
    ((1:ℚ)/4 < 1) ∧ (∀ c ∈ (effectivePolar ⟨true, 7/10⟩
      ⟨[0, 2, 4], [1, 2, 3], [3, 2, 1]⟩ (1/2)).cd, 0 < c) ∧
    ((10:ℚ) > listMax [0, 2, 4]) ∧
    compare_phase ⟨true, 7/10⟩ ⟨[0, 2, 4], [1, 2, 3], [3, 2, 1]⟩
      ⟨"takeoff", 0, 1/4⟩ (1/2) 10 Target.max_ld = .error .outOfRange :=
  ⟨by norm_num,
    by norm_num [effectivePolar, correctedPolar, correct_cd_pg_arr,
      correct_cl_pg, zero_lift_idx, argminIdx, listMin, abs_of_nonneg],
    by norm_num [listMax],
    compare_phase_out_of_range_fails ⟨true, 7/10⟩
      ⟨[0, 2, 4], [1, 2, 3], [3, 2, 1]⟩ ⟨"takeoff", 0, 1/4⟩ (1/2) 10
      Target.max_ld (by norm_num) (by simp)
      (by norm_num [effectivePolar, correctedPolar, correct_cd_pg_arr,
        correct_cl_pg, zero_lift_idx, argminIdx, listMin, abs_of_nonneg])
      (Or.inr (by norm_num [listMax]))⟩

/-! ### C3 -/

theorem max_add_zero (A B : ℚ) : max (A + B) A = A + max B 0 := by
  rcases le_total B 0 with h | h
  · rw [max_eq_right h, add_zero, max_eq_right (by linarith : A + B ≤ A)]
  · rw [max_eq_left h, max_eq_left (by linarith : A ≤ A + B)]

theorem getD_map_mono (f g : ℚ → ℚ) (h : ∀ x, f x ≤ g x) (l : List ℚ) (i : Nat) :
    (l.map f).getD i 0 ≤ (l.map g).getD i 0 := by
  induction l generalizing i with
  | nil => simp
  | cons a t ih =>
    cases i with
    | zero => simpa using h a
    | succ j => simpa using ih j

/-- C3 counterexample: with a negative zero-lift drag entry
(`cd = [-1]`, `cl = [0]`) the corrected cd entry at Mach 3/5 (β = 4/5)
is strictly smaller than at Mach 0 (β = 1), so the corrected cd is not
non-decreasing in Mach for every fixed cd, cl. -/
theorem correct_cd_pg_arr_mono_cex :
    ((0:ℚ) ≤ 0) ∧ ((0:ℚ) ≤ 3/5) ∧ ((3:ℚ)/5 < 1) ∧
    ((0:ℚ) ≤ 1) ∧ ((1:ℚ)^2 = 1 - 0^2) ∧
    ((0:ℚ) ≤ 4/5) ∧ (((4:ℚ)/5)^2 = 1 - (3/5:ℚ)^2) ∧
    (correct_cd_pg_arr [-1] [0] (4/5)).getD 0 0
      < (correct_cd_pg_arr [-1] [0] 1).getD 0 0 := by
  norm_num [correct_cd_pg_arr, zero_lift_idx, argminIdx, listMin]

/-- C3 amended: for fixed cd and cl arrays and 0 ≤ m1 ≤ m2 < 1, each
entry of the corrected drag coefficient produced by the array branch of
`correct_cd_pg` at m2 is ≥ the corresponding entry at m1, provided the
zero-lift drag entry cd0 = cd[argmin |cl|] is nonnegative (any physical
polar; the counterexample needs cd0 < 0). -/
theorem correct_cd_pg_arr_mono_in_mach
    (cd cl : List ℚ) (m1 m2 b1 b2 : ℚ)
    (hm1 : 0 ≤ m1) (hm12 : m1 ≤ m2) (hm2 : m2 < 1)
    (hb1 : 0 ≤ b1) (hb1sq : b1 ^ 2 = 1 - m1 ^ 2)
    (hb2 : 0 ≤ b2) (hb2sq : b2 ^ 2 = 1 - m2 ^ 2)
    (hcd0 : 0 ≤ cd.getD (zero_lift_idx cl) 0) :
    ∀ i, (correct_cd_pg_arr cd cl b1).getD i 0
      ≤ (correct_cd_pg_arr cd cl b2).getD i 0 := by
  have hb2pos : 0 < b2 := by
    rcases eq_or_lt_of_le hb2 with h | h
    · exfalso; rw [← h] at hb2sq; nlinarith
    · exact h
  have hb21 : b2 ≤ b1 := by nlinarith
  have hb1pos : 0 < b1 := lt_of_lt_of_le hb2pos hb21
  intro i
  apply getD_map_mono
  intro c
  set cd0 := cd.getD (zero_lift_idx cl) 0 with hcd0def
  have hform : ∀ b : ℚ, 0 < b →
      max (cd0 / b ^ 2 + (c - cd0) / b ^ 3) (cd0 / b ^ 2)
        = cd0 / b ^ 2 + max (c - cd0) 0 / b ^ 3 := by
    intro b hb
    rw [max_add_zero, ← max_div_div_right (le_of_lt (pow_pos hb 3)) (c - cd0) 0,
      zero_div]
  rw [hform b1 hb1pos, hform b2 hb2pos]
  have h2 : cd0 / b1 ^ 2 ≤ cd0 / b2 ^ 2 :=
    div_le_div_of_nonneg_left hcd0 (pow_pos hb2pos 2)
      (pow_le_pow_left₀ (le_of_lt hb2pos) hb21 2)
  have h3 : max (c - cd0) 0 / b1 ^ 3 ≤ max (c - cd0) 0 / b2 ^ 3 :=
    div_le_div_of_nonneg_left (le_max_right _ _) (pow_pos hb2pos 3)
      (pow_le_pow_left₀ (le_of_lt hb2pos) hb21 3)
  exact add_le_add h2 h3

/-- C3 amended witness: Mach 0 → 3/5 (β 1 → 4/5) on a physical polar. -/
theorem correct_cd_pg_arr_mono_in_mach_witness :
    ((0:ℚ) ≤ 0) ∧ ((0:ℚ) ≤ 3/5) ∧ ((3:ℚ)/5 < 1) ∧
    ((0:ℚ) ≤ 1) ∧ ((1:ℚ)^2 = 1 - 0^2) ∧
    ((0:ℚ) ≤ 4/5) ∧ (((4:ℚ)/5)^2 = 1 - (3/5:ℚ)^2) ∧
    ((0:ℚ) ≤ ([3/100, 2/100, 1/100] : List ℚ).getD (zero_lift_idx [0, 1, 2]) 0) ∧
    ∀ i, (correct_cd_pg_arr [3/100, 2/100, 1/100] [0, 1, 2] 1).getD i 0
      ≤ (correct_cd_pg_arr [3/100, 2/100, 1/100] [0, 1, 2] (4/5)).getD i 0 :=
  ⟨by norm_num, by norm_num, by norm_num, by norm_num, by norm_num,
    by norm_num, by norm_num,
    by norm_num [zero_lift_idx, argminIdx, listMin, abs_of_nonneg],
    correct_cd_pg_arr_mono_in_mach [3/100, 2/100, 1/100] [0, 1, 2]
      0 (3/5) 1 (4/5) (by norm_num) (by norm_num) (by norm_num)
      (by norm_num) (by norm_num) (by norm_num) (by norm_num)
      (by norm_num [zero_lift_idx, argminIdx, listMin, abs_of_nonneg])⟩

/-! ### C4 -/

/-- C4: for a non-empty polar, `compute_metrics_at_alpha` fails with the
OutOfRange error exactly when alpha is strictly outside
[min alpha, max alpha]; otherwise it returns the interpolated cl and cd
with ld = cl/cd, except that an interpolated cd ≤ 0 yields ld = +inf
when cl > 0 and ld = −inf otherwise (including cl = 0). -/
theorem compute_metrics_at_alpha_spec (p : Polar) (a : ℚ) (hne : p.alpha ≠ []) :
    (compute_metrics_at_alpha p a = .error .outOfRange ↔
      (a < listMin p.alpha ∨ listMax p.alpha < a)) ∧
    ((listMin p.alpha ≤ a ∧ a ≤ listMax p.alpha) →
      compute_metrics_at_alpha p a =
        .ok ⟨interpLin a p.alpha p.cl, interpLin a p.alpha p.cd,
          if interpLin a p.alpha p.cd ≤ 0 then
            (if 0 < interpLin a p.alpha p.cl then .posInf else .negInf)
          else .finite (interpLin a p.alpha p.cl / interpLin a p.alpha p.cd)⟩) := by
  constructor
  · constructor
    · intro heq
      by_contra hout
      push_neg at hout
      rw [compute_metrics_ok p a hne hout.1 hout.2] at heq
      exact Except.noConfusion heq
    · exact compute_metrics_out_of_range p a hne
  · intro hin
    exact compute_metrics_ok p a hne hin.1 hin.2

/-- C4 witness: the polar ([0, 2], [0, 1], [1, 2]) queried at alpha 1. -/
theorem compute_metrics_at_alpha_spec_witness :
    (([0, 2] : List ℚ) ≠ []) ∧
    ((compute_metrics_at_alpha ⟨[0, 2], [0, 1], [1, 2]⟩ 1 = .error .outOfRange ↔
      ((1:ℚ) < listMin [0, 2] ∨ listMax [0, 2] < 1)) ∧
    ((listMin [0, 2] ≤ (1:ℚ) ∧ (1:ℚ) ≤ listMax [0, 2]) →
      compute_metrics_at_alpha ⟨[0, 2], [0, 1], [1, 2]⟩ 1 =
        .ok ⟨interpLin 1 [0, 2] [0, 1], interpLin 1 [0, 2] [1, 2],
          if interpLin 1 [0, 2] [1, 2] ≤ 0 then
            (if 0 < interpLin 1 [0, 2] [0, 1] then .posInf else .negInf)
          else .finite (interpLin 1 [0, 2] [0, 1] / interpLin 1 [0, 2] [1, 2])⟩)) :=
  ⟨by simp, compute_metrics_at_alpha_spec ⟨[0, 2], [0, 1], [1, 2]⟩ 1 (by simp)⟩

/-! ### C7 -/

/-- C7: when the global configuration has `use_compressibility = false`,
`apply_compressibility_to_polar` returns the input polar unchanged with
no error and no warning (in particular no Mach validation), for every
Mach number including supersonic ones. -/
theorem apply_compressibility_identity_off
    (cfg : CompressibilityConfig) (p : Polar) (mach b : ℚ)
    (hoff : cfg.use_compressibility = false) :
    apply_compressibility_to_polar cfg p mach b = .ok (p, []) := by
  simp [apply_compressibility_to_polar, hoff]

/-- C7 witness: switch off, Mach 2 (supersonic) — still the identity. -/
theorem apply_compressibility_identity_off_witness :
    ((⟨false, 7/10⟩ : CompressibilityConfig).use_compressibility = false) ∧
    apply_compressibility_to_polar ⟨false, 7/10⟩ ⟨[0], [1], [2]⟩ 2 0
      = .ok (⟨[0], [1], [2]⟩, []) :=
  ⟨rfl, apply_compressibility_identity_off ⟨false, 7/10⟩ ⟨[0], [1], [2]⟩ 2 0 rfl⟩

/-! ### C8 -/

/-- C8: with the switch on and a valid subsonic Mach, the polar returned
by `apply_compressibility_to_polar` keeps the input alpha array
unchanged and rescales cl and cd without changing their lengths. -/
theorem apply_compressibility_preserves_alpha
    (cfg : CompressibilityConfig) (p : Polar) (mach b : ℚ)
    (hon : cfg.use_compressibility = true) (hmach : mach < 1)
    (hcl : p.cl.length = p.alpha.length) (hcd : p.cd.length = p.alpha.length) :
    ∃ q ws, apply_compressibility_to_polar cfg p mach b = .ok (q, ws) ∧
      q.alpha = p.alpha ∧ q.cl.length = p.alpha.length
      ∧ q.cd.length = p.alpha.length := by
  refine ⟨effectivePolar cfg p b, applyWarns cfg mach,
    apply_compressibility_eq cfg p mach b hmach, effectivePolar_alpha cfg p b,
    ?_, ?_⟩
  · rw [effectivePolar_cl_length]; exact hcl
  · rw [effectivePolar_cd_length]; exact hcd

/-- C8 witness: the 2-point polar at Mach 3/5, β = 4/5. -/
theorem apply_compressibility_preserves_alpha_witness :
    ((⟨true, 7/10⟩ : CompressibilityConfig).use_compressibility = true) ∧
    ((3:ℚ)/5 < 1) ∧
    (∃ q ws, apply_compressibility_to_polar ⟨true, 7/10⟩ ⟨[0, 2], [1, 2], [3, 4]⟩
        (3/5) (4/5) = .ok (q, ws) ∧
      q.alpha = [0, 2] ∧ q.cl.length = ([0, 2] : List ℚ).length
      ∧ q.cd.length = ([0, 2] : List ℚ).length) :=
  ⟨rfl, by norm_num,
    apply_compressibility_preserves_alpha ⟨true, 7/10⟩ ⟨[0, 2], [1, 2], [3, 4]⟩
      (3/5) (4/5) rfl (by norm_num) (by simp) (by simp)⟩

/-! ### C9 -/

/-- C9: on scalar inputs `correct_cd_pg` returns exactly cd/β² and
ignores the supplied cl (both the scalar-cl branch and the cl = None
fallback); the split zero-lift/induced-drag formula is applied only in
the array branch, so scalar and array calls on the same data can
disagree. -/
theorem correct_cd_pg_scalar_spec :
    (∀ (cd b : ℚ) (cl : Option ℚ) (m : ℚ), 0 ≤ m → m < 1 → 0 ≤ b →
      b ^ 2 = 1 - m ^ 2 → correct_cd_pg_scalar cd b cl = cd / b ^ 2) ∧
    (correct_cd_pg_arr [2/100, 1/100] [0, 1] (4/5)).getD 1 0
      ≠ correct_cd_pg_scalar (1/100) (4/5) (some 1) := by
  constructor
  · intro cd b cl m _ _ _ _
    cases cl <;> rfl
  · norm_num [correct_cd_pg_arr, correct_cd_pg_scalar, zero_lift_idx,
      argminIdx, listMin, abs_of_nonneg]

/-- C9 witness: scalar call at Mach 3/5 (β = 4/5). -/
theorem correct_cd_pg_scalar_spec_witness :
    ((0:ℚ) ≤ 3/5) ∧ ((3:ℚ)/5 < 1) ∧ ((0:ℚ) ≤ 4/5) ∧
    (((4:ℚ)/5) ^ 2 = 1 - (3/5:ℚ) ^ 2) ∧
    correct_cd_pg_scalar (1/100) (4/5) (some 1) = (1/100) / (4/5:ℚ) ^ 2 :=
  ⟨by norm_num, by norm_num, by norm_num, by norm_num,
    correct_cd_pg_scalar_spec.1 (1/100) (4/5) (some 1) (3/5)
      (by norm_num) (by norm_num) (by norm_num) (by norm_num)⟩

/-! ### C10 -/

/-- C10: `set_polar_data` with an empty alpha array does not fail — it
silently resets the current-polar slot to the unloaded state, after
which every `interp_cl_cd` call fails with the NotLoaded error; only
non-empty arrays of unequal lengths make `set_polar_data` fail, and in
that case the slot is left unchanged. -/
theorem set_polar_data_spec :
    (∀ (s : PolarStore) (cl cd : List ℚ),
      set_polar_data s [] cl cd = (none, none)) ∧
    (∀ (s : PolarStore) (cl cd : List ℚ) (a : ℚ),
      interp_cl_cd (set_polar_data s [] cl cd).1 a = .error .notLoaded) ∧
    (∀ (s : PolarStore) (alpha cl cd : List ℚ), alpha ≠ [] →
      (((set_polar_data s alpha cl cd).2 ≠ none) ↔
        (alpha.length ≠ cl.length ∨ alpha.length ≠ cd.length)) ∧
      ((alpha.length ≠ cl.length ∨ alpha.length ≠ cd.length) →
        set_polar_data s alpha cl cd = (s, some .lengthMismatch))) := by
  refine ⟨?_, ?_, ?_⟩
  · intro s cl cd
    simp [set_polar_data]
  · intro s cl cd a
    simp [set_polar_data, interp_cl_cd]
  · intro s alpha cl cd hne
    have h0 : ¬ alpha.length = 0 := by simpa [List.length_eq_zero] using hne
    constructor
    · constructor
      · intro h
        by_contra hl
        push_neg at hl
        refine h ?_
        unfold set_polar_data
        rw [if_neg h0, if_neg (by push_neg; exact hl)]
      · intro hl
        simp [set_polar_data, h0, hl]
    · intro hl
      simp [set_polar_data, h0, hl]

/-- C10 witness: empty-array reset followed by NotLoaded, and a
length-mismatch failure that leaves the slot unchanged. -/
theorem set_polar_data_spec_witness :
    (set_polar_data (some ⟨[0], [1], [2]⟩) [] [5] [6] = (none, none)) ∧
    (interp_cl_cd (set_polar_data (some ⟨[0], [1], [2]⟩) [] [5] [6]).1 0
      = .error .notLoaded) ∧
    (([1, 2] : List ℚ) ≠ []) ∧
    (set_polar_data (some ⟨[0], [1], [2]⟩) [1, 2] [3] [4, 5]
      = (some ⟨[0], [1], [2]⟩, some .lengthMismatch)) :=
  ⟨set_polar_data_spec.1 (some ⟨[0], [1], [2]⟩) [5] [6],
   set_polar_data_spec.2.1 (some ⟨[0], [1], [2]⟩) [5] [6] 0,
   by simp,
   (set_polar_data_spec.2.2 (some ⟨[0], [1], [2]⟩) [1, 2] [3] [4, 5]
     (by simp)).2 (Or.inl (by simp))⟩

/-! ### `aero.compressibility.beta` over ℝ (the genuine `sqrt`) -/

/-- `compressibility.beta`: √(1 − M²), failing for mach ≥ 1. -/
noncomputable def beta (mach : ℝ) : Except Err ℝ :=
  if 1 ≤ mach then .error .supersonic
  else .ok (Real.sqrt (1 - mach ^ 2))

/-! ### `domain.isa` over ℝ -/

/-- ISA sea-level temperature, K. -/
def T0 : ℝ := 288.15
/-- ISA sea-level pressure, Pa. -/
def P0 : ℝ := 101325
/-- Specific gas constant for air, J/(kg·K). -/
def Rgas : ℝ := 287.058
/-- Ratio of specific heats. -/
def GAMMA : ℝ := 1.4
/-- Standard gravity, m/s². -/
def Gacc : ℝ := 9.80665
/-- Troposphere lapse rate, K/m. -/
def LAPSE_RATE : ℝ := -0.0065
/-- Tropopause altitude, m. -/
def TROPOPAUSE_ALT : ℝ := 11000

/-- `isa.isa_atmosphere`: (T, p, rho, a) at an altitude, failing on
negative altitude.  Python's float `**` on the positive base `T/T0` is
real exponentiation (`rpow`). -/
noncomputable def isa_atmosphere (altitude_m : ℝ) :
    Except Err (ℝ × ℝ × ℝ × ℝ) :=
  if altitude_m < 0 then .error .invalidInput
  else
    let exponent := -Gacc / (LAPSE_RATE * Rgas)
    let T : ℝ :=
      if altitude_m ≤ TROPOPAUSE_ALT then T0 + LAPSE_RATE * altitude_m
      else T0 + LAPSE_RATE * TROPOPAUSE_ALT
    let p : ℝ :=
      if altitude_m ≤ TROPOPAUSE_ALT then P0 * (T / T0) ^ exponent
      else
        (P0 * ((T0 + LAPSE_RATE * TROPOPAUSE_ALT) / T0) ^ exponent) *
          Real.exp (-Gacc * (altitude_m - TROPOPAUSE_ALT) / (Rgas * T))
    .ok (T, p, p / (Rgas * T), Real.sqrt (GAMMA * Rgas * T))

/-! ### C5 -/

/-- C5: for mach in [0, 1), `beta` returns √(1 − mach²) and is strictly
decreasing in mach; for mach ≥ 1 it fails with the supersonic error. -/
theorem beta_spec (m : ℝ) :
    (0 ≤ m → m < 1 → beta m = .ok (Real.sqrt (1 - m ^ 2))) ∧
    (∀ m₂ : ℝ, 0 ≤ m → m < m₂ → m₂ < 1 →
      Real.sqrt (1 - m₂ ^ 2) < Real.sqrt (1 - m ^ 2)) ∧
    (1 ≤ m → beta m = .error .supersonic) := by
  refine ⟨?_, ?_, ?_⟩
  · intro _ h1
    unfold beta
    rw [if_neg (not_le.mpr h1)]
  · intro m₂ h0 h12 h2
    apply Real.sqrt_lt_sqrt
    · nlinarith
    · nlinarith
  · intro h
    unfold beta
    rw [if_pos h]

/-- C5 witness: mach 0 vs mach 1/2, and the supersonic failure at 1. -/
theorem beta_spec_witness :
    (beta 0 = .ok (Real.sqrt (1 - (0:ℝ) ^ 2))) ∧
    (Real.sqrt (1 - (1/2:ℝ) ^ 2) < Real.sqrt (1 - (0:ℝ) ^ 2)) ∧
    (beta 1 = .error .supersonic) :=
  ⟨(beta_spec 0).1 le_rfl one_pos,
   (beta_spec 0).2.1 (1/2) le_rfl (by norm_num) (by norm_num),
   (beta_spec 1).2.2 le_rfl⟩

/-! ### C6 -/

/-- C6: `isa_atmosphere` fails with InvalidInput for negative altitude;
in [0, 11000] it returns T = T0 + L·h with the barometric pressure
p = p0·(T/T0)^(−g/(L·R)); above 11000 it returns the tropopause
temperature with the isothermal decay from the tropopause pressure; in
all non-failing cases rho = p/(R·T) and a = √(γ·R·T), with the ISA
constants. -/
theorem isa_atmosphere_spec (h : ℝ) :
    (T0 = 288.15 ∧ P0 = 101325 ∧ Rgas = 287.058 ∧ GAMMA = 1.4
      ∧ Gacc = 9.80665 ∧ LAPSE_RATE = -0.0065 ∧ TROPOPAUSE_ALT = 11000) ∧
    (h < 0 → isa_atmosphere h = .error .invalidInput) ∧
    (0 ≤ h → h ≤ 11000 →
      isa_atmosphere h = .ok (T0 + LAPSE_RATE * h,
        P0 * ((T0 + LAPSE_RATE * h) / T0) ^ (-Gacc / (LAPSE_RATE * Rgas)),
        P0 * ((T0 + LAPSE_RATE * h) / T0) ^ (-Gacc / (LAPSE_RATE * Rgas))
          / (Rgas * (T0 + LAPSE_RATE * h)),
        Real.sqrt (GAMMA * Rgas * (T0 + LAPSE_RATE * h)))) ∧
    (11000 < h →
      isa_atmosphere h = .ok (T0 + LAPSE_RATE * 11000,
        (P0 * ((T0 + LAPSE_RATE * 11000) / T0) ^ (-Gacc / (LAPSE_RATE * Rgas)))
          * Real.exp (-Gacc * (h - 11000) / (Rgas * (T0 + LAPSE_RATE * 11000))),
        (P0 * ((T0 + LAPSE_RATE * 11000) / T0) ^ (-Gacc / (LAPSE_RATE * Rgas)))
          * Real.exp (-Gacc * (h - 11000) / (Rgas * (T0 + LAPSE_RATE * 11000)))
          / (Rgas * (T0 + LAPSE_RATE * 11000)),
        Real.sqrt (GAMMA * Rgas * (T0 + LAPSE_RATE * 11000)))) := by
  refine ⟨⟨rfl, rfl, rfl, rfl, rfl, rfl, rfl⟩, ?_, ?_, ?_⟩
  · intro hneg
    unfold isa_atmosphere
    rw [if_pos hneg]
  · intro h0 h1
    simp only [isa_atmosphere, if_neg (not_lt.mpr h0),
      if_pos (show h ≤ TROPOPAUSE_ALT from h1)]
  · intro h1
    have hgt : ¬ h ≤ TROPOPAUSE_ALT := not_le.mpr h1
    have h0 : ¬ h < 0 :=
      not_lt.mpr (le_of_lt (lt_trans (by norm_num : (0:ℝ) < 11000) h1))
    simp only [isa_atmosphere, if_neg h0, if_neg hgt]
    rfl

/-- C6 witness: altitudes −1 (failure), 0 (troposphere), 12000
(stratosphere). -/
theorem isa_atmosphere_spec_witness :
    (isa_atmosphere (-1) = .error .invalidInput) ∧
    (isa_atmosphere 0 = .ok (T0 + LAPSE_RATE * 0,
      P0 * ((T0 + LAPSE_RATE * 0) / T0) ^ (-Gacc / (LAPSE_RATE * Rgas)),
      P0 * ((T0 + LAPSE_RATE * 0) / T0) ^ (-Gacc / (LAPSE_RATE * Rgas))
        / (Rgas * (T0 + LAPSE_RATE * 0)),
      Real.sqrt (GAMMA * Rgas * (T0 + LAPSE_RATE * 0)))) ∧
    (isa_atmosphere 12000 = .ok (T0 + LAPSE_RATE * 11000,
      (P0 * ((T0 + LAPSE_RATE * 11000) / T0) ^ (-Gacc / (LAPSE_RATE * Rgas)))
        * Real.exp (-Gacc * ((12000:ℝ) - 11000) / (Rgas * (T0 + LAPSE_RATE * 11000))),
      (P0 * ((T0 + LAPSE_RATE * 11000) / T0) ^ (-Gacc / (LAPSE_RATE * Rgas)))
        * Real.exp (-Gacc * ((12000:ℝ) - 11000) / (Rgas * (T0 + LAPSE_RATE * 11000)))
        / (Rgas * (T0 + LAPSE_RATE * 11000)),
      Real.sqrt (GAMMA * Rgas * (T0 + LAPSE_RATE * 11000)))) :=
  ⟨(isa_atmosphere_spec (-1)).2.1 (by norm_num),
   (isa_atmosphere_spec 0).2.2.1 le_rfl (by norm_num),
   (isa_atmosphere_spec 12000).2.2.2 (by norm_num)⟩

end TurbofanVPF
